import Mathlib

/-!
Shallow embedding of `src/research_pipeline.py` (class `ResearchPaperPipeline`):
the knowledge-base construction and section-generation pipeline.

External collaborators are modelled at their interface boundary:
* the per-document fetch+extract attempt is an `Except String Document`
  (the caught Python exception is the `String`);
* the generation service is a function `String → Except String String`
  from the prompt to either the returned text or the raised exception.
-/

/-- One retrieved paper, as stored in `self.full_texts`
(dict built in `fetch_and_parse_pdfs`, lines 49-57). -/
structure Document where
  title : String
  authors : List String
  published : String
  summary : String
  full_text : String
  url : String
  entry_id : String
deriving DecidableEq, Repr

/-- One knowledge-base chunk with metadata, as appended in
`build_knowledge_base` (lines 70-76). -/
structure Fragment where
  text : String
  source_title : String
  source_authors : List String
  source_url : String
  source_id : String
deriving DecidableEq, Repr

/-- `fetch_and_parse_pdfs` (lines 36-60): each paper's download+parse attempt
either yields a `Document` appended to `full_texts`, or raises; the
`except` clause swallows the exception and the loop continues. -/
def fetch_and_parse_pdfs (attempts : List (Except String Document)) : List Document :=
  attempts.foldl
    (fun acc r =>
      match r with
      | Except.ok d => acc ++ [d]
      | Except.error _ => acc)
    []

/-- Sentence-terminating punctuation `[.!?]` of the split pattern (line 67). -/
def isSentenceTerm (c : Char) : Bool :=
  c = '.' || c = '!' || c = '?'

/-- The characters matched by the pattern's whitespace class on ASCII text:
space, tab, newline, carriage return, vertical tab, form feed. -/
def isWsChar (c : Char) : Bool :=
  c = ' ' || c = '\t' || c = '\n' || c = '\r' || c.toNat = 11 || c.toNat = 12

/-- The uppercase-letter class `[A-Z]` of the split pattern. -/
def isUpperAZ (c : Char) : Bool :=
  'A' ≤ c && c ≤ 'Z'

/-- Whether the last character consumed into the current piece is
sentence-terminating punctuation (`acc` is the reversed current piece). -/
def headIsTerm : List Char → Bool
  | [] => false
  | a :: _ => isSentenceTerm a

/-- Automaton for `re.split(r'(?<=[.!?])\s+(?=[A-Z])', text)` (line 67).
A split point is a maximal whitespace run immediately preceded by `[.!?]`
and immediately followed by `[A-Z]`; the whitespace run is removed.
`acc` is the reversed piece built so far; `ws` is the reversed pending
whitespace run collected since a terminator (empty when not pending). -/
def splitGo : List Char → List Char → List Char → List (List Char)
  | [], acc, ws => [(ws ++ acc).reverse]
  | c :: rest, acc, ws =>
    if ws.isEmpty then
      if isWsChar c && headIsTerm acc then
        splitGo rest acc [c]
      else
        splitGo rest (c :: acc) []
    else
      if isWsChar c then
        splitGo rest acc (c :: ws)
      else if isUpperAZ c then
        acc.reverse :: splitGo rest [c] []
      else
        splitGo rest (c :: (ws ++ acc)) []

/-- `re.split` boundary split of a character list. -/
def splitChars (cs : List Char) : List (List Char) :=
  splitGo cs [] []

/-- The chunk list `re.split(r'(?<=[.!?])\s+(?=[A-Z])', text)` (line 67). -/
def splitChunks (s : String) : List String :=
  (splitChars s.data).map (fun l => String.mk l)

/-- The chunk dict appended at lines 70-76: text plus the four metadata
fields copied from the owning paper's entry. -/
def mkFragment (d : Document) (chunk : String) : Fragment :=
  { text := chunk
    source_title := d.title
    source_authors := d.authors
    source_url := d.url
    source_id := d.entry_id }

/-- `build_knowledge_base` (lines 62-77): for each paper, split its full
text and append every chunk with `len(chunk) > 50` to the knowledge base. -/
def build_knowledge_base (docs : List Document) : List Fragment :=
  docs.foldl
    (fun kb d =>
      (splitChunks d.full_text).foldl
        (fun kb2 chunk =>
          if 50 < chunk.length then kb2 ++ [mkFragment d chunk] else kb2)
        kb)
    []

/-- The fragments a single document contributes (its chunks longer than 50
characters, tagged with its metadata). -/
def docFragments (d : Document) : List Fragment :=
  ((splitChunks d.full_text).filter (fun chunk => 50 < chunk.length)).map (mkFragment d)

/-- `_format_chunks_for_prompt` (lines 124-129): assigns temporary
1-based IDs and formats each chunk as a source line. -/
def _format_chunks_for_prompt (chunks : List Fragment) : String :=
  chunks.enum.foldl
    (fun acc p =>
      acc ++ ("[Source ID: " ++ toString (p.1 + 1) ++ "]: " ++ p.2.text ++ "\n\n"))
    ""

/-- Python `str.strip()`: removes leading and trailing whitespace. -/
def pyStrip (s : String) : String :=
  String.mk (((s.data.dropWhile isWsChar).reverse.dropWhile isWsChar).reverse)

/-- `_query_llm` (lines 131-141): on success return the stripped message
content; on any exception return the error text prefixed with
"Error generating content: ". -/
def _query_llm (llm : String → Except String String) (prompt : String) : String :=
  match llm prompt with
  | Except.ok content => pyStrip content
  | Except.error e => "Error generating content: " ++ e

/-- `section_heads` (line 82). -/
def section_heads : List String :=
  ["Abstract", "Introduction", "Related Work", "Methodology", "Results", "Discussion", "Conclusion"]

/-- `relevant_chunks = self.knowledge_base[:3]` (line 90): the evidence for
a section is the first three knowledge-base fragments, whatever the section. -/
def relevant_chunks (kb : List Fragment) : List Fragment :=
  kb.take 3

/-- The f-string `section_prompt` built at lines 93-107, verbatim,
with its 12-space indentation. -/
def section_prompt (topic sect : String) (chunks : List Fragment) : String :=
  "\n            Write the **" ++ sect ++ "** section for a two-page research paper on **" ++ topic ++ "**.\n\n            You must ground every claim you make with direct evidence from the provided research excerpts. Weave the citations seamlessly into the narrative.\n\n            Instructions:\n            1. Use the following excerpts from research papers as your sole source of evidence.\n            2. For every factual statement, cite the source using the provided ID in brackets, e.g., [1].\n            3. Write authoritatively and concisely. This section should be roughly 2-4 paragraphs.\n\n            Excerpts:\n            " ++ _format_chunks_for_prompt chunks ++ "\n\n            Begin writing the " ++ sect ++ " section now:\n            "

/-- Lines 113-115: `if chunk not in self.references: self.references.append(chunk)`.
Python `in` on dicts compares whole dicts, i.e. whole fragments. -/
def addReference (refs : List Fragment) (c : Fragment) : List Fragment :=
  if c ∈ refs then refs else refs ++ [c]

/-- One iteration of the section loop (lines 86-115): build the prompt over
`relevant_chunks`, query the model, append the section markdown, and fold
the cited chunks into the running reference list. -/
def sectionStep (llm : String → Except String String) (topic : String) (kb : List Fragment)
    (st : String × List Fragment) (sect : String) : String × List Fragment :=
  let chunks := relevant_chunks kb
  let section_text := _query_llm llm (section_prompt topic sect chunks)
  (st.1 ++ ("## " ++ sect ++ "\n\n" ++ section_text ++ "\n\n"),
   chunks.foldl addReference st.2)

/-- One rendered reference line (line 120):
`f"{[i+1]} {title} by {', '.join(authors[:2])}. {url}\n"`. -/
def joinComma : List String → String
  | [] => ""
  | [a] => a
  | a :: rest => a ++ ", " ++ joinComma rest

/-- The markdown line rendered for reference number `i+1` (line 120).
Note Python renders `f"{[i+1]}"` as the list display `[i+1]`. -/
def reference_line (i : Nat) (r : Fragment) : String :=
  "[" ++ toString (i + 1) ++ "] " ++ r.source_title ++ " by "
    ++ joinComma (r.source_authors.take 2) ++ ". " ++ r.source_url ++ "\n"

/-- The trailing references block (lines 117-120). -/
def referencesBlock (refs : List Fragment) : String :=
  refs.enum.foldl (fun acc p => acc ++ reference_line p.1 p.2) "## References\n\n"

/-- `generate_structured_paper` (lines 79-122): header, one markdown block
per section head, then the references block over the accumulated list. -/
def generate_structured_paper (llm : String → Except String String)
    (topic : String) (kb : List Fragment) : String :=
  let st := section_heads.foldl (sectionStep llm topic kb)
    ("# Research Paper: " ++ topic ++ "\n\n", [])
  st.1 ++ referencesBlock st.2

/-- The per-section bodies produced by the run, in section order. -/
def sectionBodies (llm : String → Except String String)
    (topic : String) (kb : List Fragment) : List String :=
  section_heads.map (fun s => _query_llm llm (section_prompt topic s (relevant_chunks kb)))

/-- The reference list `self.references` accumulated by the section loop. -/
def pipelineReferences (kb : List Fragment) : List Fragment :=
  section_heads.foldl (fun refs _ => (relevant_chunks kb).foldl addReference refs) []

/-- First-occurrence deduplication of a fragment list. -/
def firstOccurrenceDedup (l : List Fragment) : List Fragment :=
  l.foldl addReference []

/-- Concatenation of a list of strings, in order. -/
def concatStrings : List String → String
  | [] => ""
  | s :: rest => s ++ concatStrings rest

/-- Joins pieces back with separators: used to state that splitting only
removes the separator whitespace. -/
def interleaveJoin : List (List Char) → List (List Char) → List Char
  | [], _ => []
  | p :: ps, [] => p ++ interleaveJoin ps []
  | p :: ps, s :: ss => p ++ s ++ interleaveJoin ps ss

/-! ## Concrete fixtures for counterexamples and witnesses -/

/-- A single-sentence paper text longer than 50 characters. -/
def docA : Document :=
  { title := "Paper A"
    authors := ["Alice Smith", "Bob Jones", "Carol Diaz"]
    published := "2024-01-01"
    summary := "s"
    full_text := "Contrastive learning improves visual representation quality substantially."
    url := "http://arxiv.org/pdf/1"
    entry_id := "arxiv-1" }

/-- Same retrieval id and text as `docA` but a different title. -/
def docB : Document :=
  { docA with title := "Paper B" }

/-- The fragment `build_knowledge_base` extracts from `docA`. -/
def fragA : Fragment := mkFragment docA docA.full_text

/-- The fragment `build_knowledge_base` extracts from `docB`: same
`(text, source_id)` as `fragA`, different `source_title`. -/
def fragB : Fragment := mkFragment docB docB.full_text

/-- A paper whose text repeats the same sentence twice. -/
def docC : Document :=
  { title := "Paper C"
    authors := ["Carol Diaz"]
    published := "2024-01-01"
    summary := "s"
    full_text := docA.full_text ++ " " ++ docA.full_text
    url := "http://arxiv.org/pdf/3"
    entry_id := "arxiv-3" }

/-- The (duplicated) fragment extracted from `docC`. -/
def fragC : Fragment := mkFragment docC docA.full_text

/-- A paper whose text is one chunk of exactly 50 characters. -/
def doc50 : Document :=
  { title := "Tiny"
    authors := ["Ann Lee"]
    published := "2024-01-01"
    summary := "s"
    full_text := String.mk (List.replicate 50 'a')
    url := "http://arxiv.org/pdf/2"
    entry_id := "arxiv-2" }

/-- A generation service that always raises, with an exception message
that depends on the prompt (here: its length). -/
def lengthFailLLM : String → Except String String :=
  fun p => Except.error (toString p.length)

/-! ## Basic characterizations of the folds -/

theorem foldl_collect_eq (attempts : List (Except String Document)) :
    ∀ acc : List Document,
      attempts.foldl
        (fun acc r =>
          match r with
          | Except.ok d => acc ++ [d]
          | Except.error _ => acc)
        acc
      = acc ++ attempts.filterMap Except.toOption := by
  induction attempts with
  | nil => intro acc; simp
  | cons a t ih =>
    intro acc
    cases a with
    | ok d => simp [List.filterMap_cons, ih, Except.toOption]
    | error e => simp [List.filterMap_cons, ih, Except.toOption]

theorem fetch_and_parse_pdfs_eq (attempts : List (Except String Document)) :
    fetch_and_parse_pdfs attempts = attempts.filterMap Except.toOption := by
  simpa [fetch_and_parse_pdfs] using foldl_collect_eq attempts []

theorem foldl_chunks_eq (d : Document) :
    ∀ (chunks : List String) (kb : List Fragment),
      chunks.foldl
        (fun kb2 chunk => if 50 < chunk.length then kb2 ++ [mkFragment d chunk] else kb2)
        kb
      = kb ++ ((chunks.filter (fun chunk => 50 < chunk.length)).map (mkFragment d)) := by
  intro chunks
  induction chunks with
  | nil => intro kb; simp
  | cons c t ih =>
    intro kb
    by_cases h : 50 < c.length
    · simp [List.filter_cons, h, ih]
    · simp [List.filter_cons, h, ih]

theorem build_knowledge_base_foldl (docs : List Document) :
    ∀ kb : List Fragment,
      docs.foldl
        (fun kb d =>
          (splitChunks d.full_text).foldl
            (fun kb2 chunk =>
              if 50 < chunk.length then kb2 ++ [mkFragment d chunk] else kb2)
            kb)
        kb
      = kb ++ (docs.map docFragments).flatten := by
  induction docs with
  | nil => intro kb; simp
  | cons d t ih =>
    intro kb
    rw [List.foldl_cons, foldl_chunks_eq, ih]
    simp [docFragments, List.append_assoc]

theorem build_knowledge_base_eq (docs : List Document) :
    build_knowledge_base docs = (docs.map docFragments).flatten := by
  simpa [build_knowledge_base] using build_knowledge_base_foldl docs []

theorem build_knowledge_base_append (as bs : List Document) :
    build_knowledge_base (as ++ bs) = build_knowledge_base as ++ build_knowledge_base bs := by
  simp [build_knowledge_base_eq]

theorem foldl_append_concat {α : Type} (f : α → String) :
    ∀ (l : List α) (init : String),
      l.foldl (fun acc x => acc ++ f x) init = init ++ concatStrings (l.map f) := by
  intro l
  induction l with
  | nil => intro init; simp [concatStrings]
  | cons a t ih => intro init; simp [concatStrings, ih, String.append_assoc]

/-! ## Reference accumulation -/

theorem mem_addReference_of_mem {refs : List Fragment} {c x : Fragment}
    (h : x ∈ refs) : x ∈ addReference refs c := by
  unfold addReference
  split
  · exact h
  · exact List.mem_append_left _ h

theorem mem_addReference_self (refs : List Fragment) (c : Fragment) :
    c ∈ addReference refs c := by
  unfold addReference
  split
  · assumption
  · simp

theorem mem_addReference_elim {refs : List Fragment} {c x : Fragment}
    (h : x ∈ addReference refs c) : x ∈ refs ∨ x = c := by
  unfold addReference at h
  split at h
  · exact Or.inl h
  · simpa using h

theorem mem_foldl_addReference_of_mem :
    ∀ (l : List Fragment) (r : List Fragment) (x : Fragment),
      x ∈ r → x ∈ l.foldl addReference r := by
  intro l
  induction l with
  | nil => intro r x h; simpa using h
  | cons a t ih => intro r x h; exact ih _ _ (mem_addReference_of_mem h)

theorem mem_foldl_addReference_of_mem_list :
    ∀ (l : List Fragment) (r : List Fragment) (x : Fragment),
      x ∈ l → x ∈ l.foldl addReference r := by
  intro l
  induction l with
  | nil => intro r x h; cases h
  | cons a t ih =>
    intro r x h
    rcases List.mem_cons.mp h with h1 | h2
    · subst h1
      exact mem_foldl_addReference_of_mem t _ x (mem_addReference_self r x)
    · exact ih _ x h2

theorem mem_foldl_addReference_elim :
    ∀ (l : List Fragment) (r : List Fragment) (x : Fragment),
      x ∈ l.foldl addReference r → x ∈ r ∨ x ∈ l := by
  intro l
  induction l with
  | nil => intro r x h; exact Or.inl (by simpa using h)
  | cons a t ih =>
    intro r x h
    rcases ih _ x h with h1 | h2
    · rcases mem_addReference_elim h1 with h3 | h4
      · exact Or.inl h3
      · exact Or.inr (h4 ▸ List.mem_cons_self a t)
    · exact Or.inr (List.mem_cons_of_mem a h2)

theorem foldl_addReference_of_subset :
    ∀ (l : List Fragment) (r : List Fragment),
      (∀ c ∈ l, c ∈ r) → l.foldl addReference r = r := by
  intro l
  induction l with
  | nil => intro r _; rfl
  | cons a t ih =>
    intro r h
    have ha : a ∈ r := h a (List.mem_cons_self a t)
    have hstep : addReference r a = r := by unfold addReference; simp [ha]
    rw [List.foldl_cons, hstep]
    exact ih r (fun c hc => h c (List.mem_cons_of_mem a hc))

theorem foldl_iterate_addReference (l : List Fragment) :
    ∀ (names : List String) (r : List Fragment),
      (∀ c ∈ l, c ∈ r) →
      names.foldl (fun acc _ => l.foldl addReference acc) r = r := by
  intro names
  induction names with
  | nil => intro r _; rfl
  | cons n t ih =>
    intro r h
    rw [List.foldl_cons]
    rw [foldl_addReference_of_subset l r h]
    exact ih r h

theorem pipelineReferences_eq (kb : List Fragment) :
    pipelineReferences kb = firstOccurrenceDedup (relevant_chunks kb) := by
  unfold pipelineReferences section_heads
  rw [List.foldl_cons]
  exact foldl_iterate_addReference (relevant_chunks kb) _ _
    (fun c hc => mem_foldl_addReference_of_mem_list _ _ _ hc)

theorem addReference_nodup {refs : List Fragment} (c : Fragment)
    (h : refs.Nodup) : (addReference refs c).Nodup := by
  unfold addReference
  split
  · exact h
  · next hc =>
    simp [List.nodup_append, h]
    exact hc

theorem foldl_addReference_nodup :
    ∀ (l : List Fragment) (r : List Fragment),
      r.Nodup → (l.foldl addReference r).Nodup := by
  intro l
  induction l with
  | nil => intro r h; simpa using h
  | cons a t ih => intro r h; exact ih _ (addReference_nodup a h)

theorem firstOccurrenceDedup_nodup (l : List Fragment) :
    (firstOccurrenceDedup l).Nodup :=
  foldl_addReference_nodup l [] (by simp)

theorem foldl_addReference_of_nodup :
    ∀ (l : List Fragment) (r : List Fragment),
      (r ++ l).Nodup → l.foldl addReference r = r ++ l := by
  intro l
  induction l with
  | nil => intro r _; simp
  | cons a t ih =>
    intro r h
    have hnotin : a ∉ r := by
      intro hin
      have := (List.nodup_append.mp h).2.2
      exact this hin (List.mem_cons_self a t)
    have hstep : addReference r a = r ++ [a] := by unfold addReference; simp [hnotin]
    rw [List.foldl_cons, hstep, ih (r ++ [a]) (by simpa using h)]
    simp

theorem firstOccurrenceDedup_of_nodup {l : List Fragment} (h : l.Nodup) :
    firstOccurrenceDedup l = l := by
  simpa [firstOccurrenceDedup] using foldl_addReference_of_nodup l [] (by simpa using h)

/-! ## Section loop decomposition -/

theorem foldl_sectionStep_eq (llm : String → Except String String)
    (topic : String) (kb : List Fragment) :
    ∀ (names : List String) (pre : String) (refs : List Fragment),
      names.foldl (sectionStep llm topic kb) (pre, refs)
        = (pre ++ concatStrings (names.map (fun s =>
              "## " ++ s ++ "\n\n" ++ _query_llm llm (section_prompt topic s (relevant_chunks kb)) ++ "\n\n")),
           names.foldl (fun r _ => (relevant_chunks kb).foldl addReference r) refs) := by
  intro names
  induction names with
  | nil => intro pre refs; simp [concatStrings]
  | cons s t ih =>
    intro pre refs
    rw [List.foldl_cons, List.foldl_cons]
    show t.foldl (sectionStep llm topic kb) (sectionStep llm topic kb (pre, refs) s) = _
    rw [ih]
    simp [sectionStep, concatStrings, String.append_assoc]

theorem generate_structured_paper_eq (llm : String → Except String String)
    (topic : String) (kb : List Fragment) :
    generate_structured_paper llm topic kb
      = "# Research Paper: " ++ topic ++ "\n\n"
        ++ concatStrings (section_heads.map (fun s =>
              "## " ++ s ++ "\n\n" ++ _query_llm llm (section_prompt topic s (relevant_chunks kb)) ++ "\n\n"))
        ++ referencesBlock (pipelineReferences kb) := by
  have h := foldl_sectionStep_eq llm topic kb section_heads
    ("# Research Paper: " ++ topic ++ "\n\n") []
  show (section_heads.foldl (sectionStep llm topic kb)
      ("# Research Paper: " ++ topic ++ "\n\n", [])).1
    ++ referencesBlock (section_heads.foldl (sectionStep llm topic kb)
      ("# Research Paper: " ++ topic ++ "\n\n", [])).2 = _
  rw [h]
  rfl

theorem referencesBlock_eq (refs : List Fragment) :
    referencesBlock refs
      = "## References\n\n" ++ concatStrings (refs.enum.map (fun p => reference_line p.1 p.2)) := by
  have h := foldl_append_concat (fun p : Nat × Fragment => reference_line p.1 p.2)
    refs.enum "## References\n\n"
  unfold referencesBlock
  exact h

theorem enum_numbers {α : Type} (l : List α) :
    l.enum.map (fun p => p.1 + 1) = List.range' 1 l.length := by
  rw [List.range'_eq_map_range]
  rw [show (fun p : Nat × α => p.1 + 1) = (fun i => 1 + i) ∘ Prod.fst by
    funext p; simp [Nat.add_comm]]
  rw [← List.map_map, List.enum_map_fst]

/-! ## Splitting preserves the text verbatim -/

theorem splitGo_recon :
    ∀ (cs acc ws : List Char), (∀ x ∈ ws, isWsChar x = true) →
      ∃ seps : List (List Char),
        (∀ s ∈ seps, s ≠ [] ∧ ∀ x ∈ s, isWsChar x = true) ∧
        interleaveJoin (splitGo cs acc ws) seps = acc.reverse ++ ws.reverse ++ cs := by
  intro cs
  induction cs with
  | nil =>
    intro acc ws _
    refine ⟨[], by simp, ?_⟩
    simp [splitGo, interleaveJoin]
  | cons c rest ih =>
    intro acc ws hws
    by_cases hempty : ws.isEmpty
    · have hws0 : ws = [] := by simpa [List.isEmpty_iff] using hempty
      subst hws0
      by_cases hpend : (isWsChar c && headIsTerm acc) = true
      · have hc : isWsChar c = true := (Bool.and_eq_true _ _ |>.mp hpend).1
        obtain ⟨seps, hseps, hjoin⟩ := ih acc [c] (by simpa using hc)
        refine ⟨seps, hseps, ?_⟩
        simp only [splitGo, List.isEmpty_nil, if_true, hpend]
        simpa [List.append_assoc] using hjoin
      · obtain ⟨seps, hseps, hjoin⟩ := ih (c :: acc) [] (by simp)
        refine ⟨seps, hseps, ?_⟩
        simp only [splitGo, List.isEmpty_nil, if_true, hpend, if_false]
        simpa [List.reverse_cons, List.append_assoc] using hjoin
    · have hwsne : ws ≠ [] := by simpa [List.isEmpty_iff] using hempty
      by_cases hc : isWsChar c = true
      · obtain ⟨seps, hseps, hjoin⟩ := ih acc (c :: ws) (by
          intro x hx
          rcases List.mem_cons.mp hx with hxc | hxw
          · exact hxc ▸ hc
          · exact hws x hxw)
        refine ⟨seps, hseps, ?_⟩
        simp only [splitGo, hempty, if_false, hc, if_true]
        simpa [List.reverse_cons, List.append_assoc] using hjoin
      · by_cases hu : isUpperAZ c = true
        · obtain ⟨seps, hseps, hjoin⟩ := ih [c] [] (by simp)
          refine ⟨ws.reverse :: seps, ?_, ?_⟩
          · intro s hs
            rcases List.mem_cons.mp hs with hsr | hss
            · subst hsr
              refine ⟨by simpa using hwsne, ?_⟩
              intro x hx
              exact hws x (List.mem_reverse.mp hx)
            · exact hseps s hss
          · simp only [splitGo, hempty, if_false, hc, hu, if_true]
            simp only [interleaveJoin]
            rw [hjoin]
            simp [List.append_assoc]
        · obtain ⟨seps, hseps, hjoin⟩ := ih (c :: (ws ++ acc)) [] (by simp)
          refine ⟨seps, hseps, ?_⟩
          simp only [splitGo, hempty, if_false, hc, hu]
          simpa [List.reverse_cons, List.reverse_append, List.append_assoc] using hjoin

theorem mem_interleaveJoin_infix :
    ∀ (ps ss : List (List Char)) (p : List Char),
      p ∈ ps → p <:+: interleaveJoin ps ss := by
  intro ps
  induction ps with
  | nil => intro ss p h; cases h
  | cons q ps ih =>
    intro ss p h
    rcases List.mem_cons.mp h with hq | hp
    · subst hq
      cases ss with
      | nil =>
        rw [interleaveJoin]
        exact ⟨[], interleaveJoin ps [], by simp⟩
      | cons s ss' =>
        rw [interleaveJoin]
        exact ⟨[], s ++ interleaveJoin ps ss', by simp [List.append_assoc]⟩
    · cases ss with
      | nil =>
        rw [interleaveJoin]
        exact (ih [] p hp).trans (List.suffix_append q _).isInfix
      | cons s ss' =>
        rw [interleaveJoin]
        exact (ih ss' p hp).trans ⟨q ++ s, [], by simp [List.append_assoc]⟩

theorem splitChars_infix (cs : List Char) :
    ∀ p ∈ splitChars cs, p <:+: cs := by
  intro p hp
  obtain ⟨seps, _, hjoin⟩ := splitGo_recon cs [] [] (by simp)
  have h := mem_interleaveJoin_infix (splitGo cs [] []) seps p hp
  rw [hjoin] at h
  simpa using h

theorem splitChars_recon (cs : List Char) :
    ∃ seps : List (List Char),
      (∀ s ∈ seps, s ≠ [] ∧ ∀ x ∈ s, isWsChar x = true) ∧
      interleaveJoin (splitChars cs) seps = cs := by
  obtain ⟨seps, hseps, hjoin⟩ := splitGo_recon cs [] [] (by simp)
  exact ⟨seps, hseps, by simpa using hjoin⟩

theorem mem_splitChunks {s : String} {chunk : String}
    (h : chunk ∈ splitChunks s) : chunk.data ∈ splitChars s.data := by
  unfold splitChunks at h
  obtain ⟨l, hl, rfl⟩ := List.mem_map.mp h
  exact hl

theorem mem_build_knowledge_base {docs : List Document} {f : Fragment}
    (h : f ∈ build_knowledge_base docs) :
    ∃ d, d ∈ docs ∧ ∃ chunk, chunk ∈ splitChunks d.full_text ∧
      50 < chunk.length ∧ f = mkFragment d chunk := by
  rw [build_knowledge_base_eq] at h
  obtain ⟨l, hl, hf⟩ := List.mem_flatten.mp h
  obtain ⟨d, hd, rfl⟩ := List.mem_map.mp hl
  obtain ⟨chunk, hchunk, rfl⟩ := List.mem_map.mp hf
  have := List.mem_filter.mp hchunk
  exact ⟨d, hd, chunk, this.1, by simpa using this.2, rfl⟩

/-! ## Claims -/

set_option maxRecDepth 100000 in
/-- C1 counterexample: the drafting step never propagates a generation
failure, but the body it substitutes is not one fixed placeholder string:
it embeds the exception text. With a run in which the generation service
always fails (here raising an exception that mentions the prompt length),
the "Abstract" and "Introduction" bodies of the same run differ, so the
bodies are not all equal to a fixed placeholder. -/
theorem claim_C1_counterexample :
    lengthFailLLM (section_prompt "T" "Abstract" (relevant_chunks [])) = Except.error "672" ∧
    lengthFailLLM (section_prompt "T" "Introduction" (relevant_chunks [])) = Except.error "680" ∧
    (sectionBodies lengthFailLLM "T" [])[0]? = some "Error generating content: 672" ∧
    (sectionBodies lengthFailLLM "T" [])[1]? = some "Error generating content: 680" ∧
    (sectionBodies lengthFailLLM "T" [])[0]? ≠ (sectionBodies lengthFailLLM "T" [])[1]? := by
  refine ⟨rfl, rfl, by decide, by decide, by decide⟩

/-- C1 (amended): a generation failure never propagates out of the drafting
step; the section's body becomes the placeholder "Error generating content: "
followed by the exception text, and the run continues. When the service
always fails with the same message `e`, the assembled document still
contains all 7 sections, each body equal to that placeholder. -/
theorem claim_C1_amended (llm : String → Except String String) (e topic : String)
    (kb : List Fragment) (h : ∀ p, llm p = Except.error e) :
    sectionBodies llm topic kb
      = List.replicate section_heads.length ("Error generating content: " ++ e) ∧
    generate_structured_paper llm topic kb
      = "# Research Paper: " ++ topic ++ "\n\n"
        ++ concatStrings (section_heads.map (fun s =>
            "## " ++ s ++ "\n\n" ++ ("Error generating content: " ++ e) ++ "\n\n"))
        ++ referencesBlock (pipelineReferences kb) := by
  have hq : ∀ p, _query_llm llm p = "Error generating content: " ++ e := by
    intro p
    unfold _query_llm
    rw [h p]
  constructor
  · simp [sectionBodies, hq, section_heads, List.replicate]
  · rw [generate_structured_paper_eq]
    simp [hq]

/-- Witness for C1 (amended) at a concrete always-failing service. -/
theorem claim_C1_witness :
    sectionBodies (fun _ => Except.error "boom") "T" []
      = List.replicate section_heads.length ("Error generating content: " ++ "boom") :=
  (claim_C1_amended (fun _ => Except.error "boom") "boom" "T" [] (fun _ => rfl)).1

/-- C2 counterexample: drafting the "Abstract" with a raw generation
answer that reproduces a bolded sub-header and the literal name of another
section ("Introduction"), the body keeps both untouched: no bolded
sub-header stripping and no section-name removal happens. -/
theorem claim_C2_counterexample :
    _query_llm (fun _ => Except.ok "**Introduction** This paper studies contrast.")
        (section_prompt "T" "Abstract" (relevant_chunks []))
      = "**Introduction** This paper studies contrast." := by
  decide

/-- C2 (amended): the only post-processing applied to the raw text returned
by the generation service is stripping leading and trailing whitespace. -/
theorem claim_C2_amended (llm : String → Except String String) (p s : String)
    (h : llm p = Except.ok s) :
    _query_llm llm p = pyStrip s := by
  unfold _query_llm
  rw [h]

/-- Witness for C2 (amended) at a concrete service and raw answer. -/
theorem claim_C2_witness :
    _query_llm (fun _ => Except.ok " raw body ") "p" = "raw body" := by
  have h := claim_C2_amended (fun _ => Except.ok " raw body ") "p" " raw body " rfl
  rw [h]
  decide

/-- C3 counterexample: dedup is by whole-dict equality, not by
`(text, sourceId)`. Two papers sharing the retrieval id and text but
differing in title yield two knowledge-base fragments with identical
`(text, source_id)`; the run appends both to the reference list, so the
final ReferenceList contains a pair of distinct references with equal
`(text, sourceId)`, and a fragment whose `(text, sourceId)` was already
present is appended again. -/
theorem claim_C3_counterexample :
    build_knowledge_base [docA, docB] = [fragA, fragB] ∧
    pipelineReferences (build_knowledge_base [docA, docB]) = [fragA, fragB] ∧
    fragA ≠ fragB ∧
    fragA.text = fragB.text ∧
    fragA.source_id = fragB.source_id := by
  refine ⟨by decide, by decide, by decide, rfl, rfl⟩

/-- C3 (amended): the ReferenceList is deduplicated by whole-fragment
equality (text plus all four metadata fields) in first-citation order:
it equals the first-occurrence deduplication of the cited evidence, holds
no duplicate fragments, and contains exactly the fragments of the evidence
prefix. -/
theorem claim_C3_amended (kb : List Fragment) :
    pipelineReferences kb = firstOccurrenceDedup (relevant_chunks kb) ∧
    (pipelineReferences kb).Nodup ∧
    ∀ x : Fragment, x ∈ pipelineReferences kb ↔ x ∈ relevant_chunks kb := by
  refine ⟨pipelineReferences_eq kb, ?_, ?_⟩
  · rw [pipelineReferences_eq]
    exact firstOccurrenceDedup_nodup _
  · intro x
    rw [pipelineReferences_eq]
    constructor
    · intro hx
      rcases mem_foldl_addReference_elim _ _ _ hx with h1 | h2
      · cases h1
      · exact h2
    · exact mem_foldl_addReference_of_mem_list _ _ _

/-- Witness for C3 (amended) at a concrete knowledge base with a repeat. -/
theorem claim_C3_witness :
    pipelineReferences [fragA, fragB, fragA]
      = firstOccurrenceDedup (relevant_chunks [fragA, fragB, fragA]) ∧
    fragA ∈ pipelineReferences [fragA, fragB, fragA] := by
  refine ⟨(claim_C3_amended [fragA, fragB, fragA]).1, ?_⟩
  exact ((claim_C3_amended [fragA, fragB, fragA]).2.2 fragA).mpr (by decide)

/-- C4: the rendered document ends with a References block whose lines are
numbered 1..N contiguously in the order references were first cited
(first-occurrence order of the evidence, sections being processed in
`section_heads` order), each line carrying its bracketed number, the source
title, the first two authors, and the url. -/
theorem claim_C4 (llm : String → Except String String) (topic : String) (kb : List Fragment) :
    generate_structured_paper llm topic kb
      = "# Research Paper: " ++ topic ++ "\n\n"
        ++ concatStrings (section_heads.map (fun s =>
            "## " ++ s ++ "\n\n" ++ _query_llm llm (section_prompt topic s (relevant_chunks kb)) ++ "\n\n"))
        ++ ("## References\n\n"
            ++ concatStrings ((firstOccurrenceDedup (relevant_chunks kb)).enum.map
                (fun p => "[" ++ toString (p.1 + 1) ++ "] " ++ p.2.source_title ++ " by "
                  ++ joinComma (p.2.source_authors.take 2) ++ ". " ++ p.2.source_url ++ "\n"))) ∧
    (firstOccurrenceDedup (relevant_chunks kb)).enum.map (fun p => p.1 + 1)
      = List.range' 1 (firstOccurrenceDedup (relevant_chunks kb)).length := by
  constructor
  · rw [generate_structured_paper_eq, pipelineReferences_eq, referencesBlock_eq]
    rfl
  · exact enum_numbers _

/-- C5: evidence selection is purely positional and ignores the section
name: the selected evidence is the first `min 3 |kb|` fragments of the
knowledge base in backing order, and two different section names passed to
the section loop produce the identical cited-evidence accumulation. -/
theorem claim_C5 (kb : List Fragment) :
    relevant_chunks kb = kb.take 3 ∧
    (relevant_chunks kb).length = min 3 kb.length ∧
    (∀ i : Nat, i < 3 → (relevant_chunks kb)[i]? = kb[i]?) ∧
    ∀ (llm : String → Except String String) (topic : String)
        (st : String × List Fragment) (s1 s2 : String),
      (sectionStep llm topic kb st s1).2 = (sectionStep llm topic kb st s2).2 := by
  refine ⟨rfl, by simp [relevant_chunks], ?_, ?_⟩
  · intro i hi
    exact List.getElem?_take_of_lt hi
  · intro llm topic st s1 s2
    rfl

/-- Witness for C5 at a concrete knowledge base and section names. -/
theorem claim_C5_witness :
    (relevant_chunks [fragA, fragB, fragC, fragC])[1]? = [fragA, fragB, fragC, fragC][1]? ∧
    (sectionStep (fun _ => Except.ok "x") "T" [fragA, fragB, fragC, fragC] ("", []) "Abstract").2
      = (sectionStep (fun _ => Except.ok "x") "T" [fragA, fragB, fragC, fragC] ("", []) "Conclusion").2 := by
  refine ⟨(claim_C5 [fragA, fragB, fragC, fragC]).2.2.1 1 (by decide), ?_⟩
  exact (claim_C5 [fragA, fragB, fragC, fragC]).2.2.2 (fun _ => Except.ok "x") "T" ("", []) "Abstract" "Conclusion"

/-- C6 counterexample: a split piece of exactly 50 characters is
discarded, although the claim says every piece of length 50 or more is
kept (`len(chunk) > 50` is strict). -/
theorem claim_C6_counterexample :
    doc50.full_text.length = 50 ∧
    splitChunks doc50.full_text = [doc50.full_text] ∧
    build_knowledge_base [doc50] = [] := by
  refine ⟨by decide, by decide, by decide⟩

/-- C6 (amended): a piece obtained from splitting is kept if and only if
it is strictly longer than 50 characters (pieces of length at most 50,
including exactly 50, are discarded); consequently every fragment's text
has length greater than 50. -/
theorem claim_C6_amended (docs : List Document) :
    build_knowledge_base docs = (docs.map docFragments).flatten ∧
    (∀ f ∈ build_knowledge_base docs, 50 < f.text.length) ∧
    ∀ (d : Document) (chunk : String), chunk ∈ splitChunks d.full_text →
      (mkFragment d chunk ∈ docFragments d ↔ 50 < chunk.length) := by
  refine ⟨build_knowledge_base_eq docs, ?_, ?_⟩
  · intro f hf
    obtain ⟨d, _, chunk, _, hlen, rfl⟩ := mem_build_knowledge_base hf
    simpa [mkFragment] using hlen
  · intro d chunk hchunk
    constructor
    · intro hmem
      obtain ⟨c2, hc2, heq⟩ := List.mem_map.mp hmem
      have hfilter := List.mem_filter.mp hc2
      have htext : c2 = chunk := congrArg Fragment.text heq
      rw [← htext]
      simpa using hfilter.2
    · intro hlen
      exact List.mem_map_of_mem _ (List.mem_filter.mpr ⟨hchunk, by simpa using hlen⟩)

/-- Witness for C6 (amended) at a concrete document and fragment. -/
theorem claim_C6_witness :
    50 < fragA.text.length ∧ mkFragment docA docA.full_text ∈ docFragments docA := by
  refine ⟨(claim_C6_amended [docA]).2.1 fragA (by decide), ?_⟩
  exact ((claim_C6_amended [docA]).2.2 docA docA.full_text (by decide)).mpr (by decide)

/-- C7: a failed fetch/extract attempt does not abort the run; the failed
document contributes zero fragments, and the knowledge base equals the
concatenation of the contributions of the other documents, unaffected. -/
theorem claim_C7 (xs ys : List (Except String Document)) (e : String) :
    fetch_and_parse_pdfs (xs ++ Except.error e :: ys)
      = fetch_and_parse_pdfs xs ++ fetch_and_parse_pdfs ys ∧
    build_knowledge_base (fetch_and_parse_pdfs (xs ++ Except.error e :: ys))
      = build_knowledge_base (fetch_and_parse_pdfs xs)
        ++ build_knowledge_base (fetch_and_parse_pdfs ys) := by
  have h1 : fetch_and_parse_pdfs (xs ++ Except.error e :: ys)
      = fetch_and_parse_pdfs xs ++ fetch_and_parse_pdfs ys := by
    simp [fetch_and_parse_pdfs_eq, List.filterMap_append, List.filterMap_cons, Except.toOption]
  exact ⟨h1, by rw [h1, build_knowledge_base_append]⟩

/-- C8: an empty or too-small knowledge base is not an error: selection
returns whatever is available, the drafter still queries the generation
service for every section (with an empty excerpts block when the knowledge
base is empty), every section name gets a body, and the ReferenceList is
empty when the knowledge base is. -/
theorem claim_C8 (llm : String → Except String String) (topic : String)
    (kb : List Fragment) (h : kb.length ≤ 3) :
    relevant_chunks kb = kb ∧
    _format_chunks_for_prompt (relevant_chunks []) = "" ∧
    (sectionBodies llm topic []).length = section_heads.length ∧
    sectionBodies llm topic []
      = section_heads.map (fun s => _query_llm llm (section_prompt topic s [])) ∧
    pipelineReferences [] = [] ∧
    generate_structured_paper llm topic []
      = "# Research Paper: " ++ topic ++ "\n\n"
        ++ concatStrings (section_heads.map (fun s =>
            "## " ++ s ++ "\n\n" ++ _query_llm llm (section_prompt topic s []) ++ "\n\n"))
        ++ "## References\n\n" := by
  refine ⟨?_, rfl, by simp [sectionBodies], rfl, rfl, ?_⟩
  · exact List.take_of_length_le h
  · rw [generate_structured_paper_eq]
    rfl

/-- Witness for C8 at a one-fragment knowledge base. -/
theorem claim_C8_witness :
    relevant_chunks [fragA] = [fragA] ∧ pipelineReferences [] = [] := by
  have h := claim_C8 (fun _ => Except.ok "body") "T" [fragA] (by decide)
  exact ⟨h.1, h.2.2.2.2.1⟩

/-- C9 counterexample: a paper that repeats the same sentence yields two
identical fragments; both land in the selected prefix, dedup collapses
them, and the final ReferenceList has 1 entry although
min(3, knowledge-base length) = 2. -/
theorem claim_C9_counterexample :
    build_knowledge_base [docC] = [fragC, fragC] ∧
    (pipelineReferences (build_knowledge_base [docC])).length = 1 ∧
    min 3 (build_knowledge_base [docC]).length = 2 := by
  refine ⟨by decide, by decide, by decide⟩

/-- C9 (amended): when the first `min 3 |kb|` fragments are pairwise
distinct, the final ReferenceList has exactly `min 3 |kb|` entries,
whatever the generation outcomes; duplicates in that prefix are collapsed
instead of counted. -/
theorem claim_C9_amended (kb : List Fragment) (h : (kb.take 3).Nodup) :
    (pipelineReferences kb).length = min 3 kb.length := by
  rw [pipelineReferences_eq]
  unfold relevant_chunks
  rw [firstOccurrenceDedup_of_nodup h]
  exact List.length_take 3 kb

/-- Witness for C9 (amended) at a two-fragment knowledge base. -/
theorem claim_C9_witness :
    (pipelineReferences [fragA, fragB]).length = min 3 ([fragA, fragB] : List Fragment).length :=
  claim_C9_amended [fragA, fragB] (by decide)

/-- C10: every fragment's text is a contiguous verbatim substring of the
full text of the document it was extracted from, and carries that
document's title, authors, url and id; moreover splitting only removes
the whitespace at the split boundaries: interleaving the split pieces with
the removed (non-empty, all-whitespace) separators reconstructs the
original text exactly. -/
theorem claim_C10 :
    (∀ (docs : List Document) (f : Fragment), f ∈ build_knowledge_base docs →
      ∃ d, d ∈ docs ∧ f.source_title = d.title ∧ f.source_authors = d.authors ∧
        f.source_url = d.url ∧ f.source_id = d.entry_id ∧
        f.text.data <:+: d.full_text.data) ∧
    ∀ cs : List Char, ∃ seps : List (List Char),
      (∀ s ∈ seps, s ≠ [] ∧ ∀ x ∈ s, isWsChar x = true) ∧
      interleaveJoin (splitChars cs) seps = cs := by
  constructor
  · intro docs f hf
    obtain ⟨d, hd, chunk, hchunk, _, rfl⟩ := mem_build_knowledge_base hf
    refine ⟨d, hd, rfl, rfl, rfl, rfl, ?_⟩
    exact splitChars_infix d.full_text.data chunk.data (mem_splitChunks hchunk)
  · exact splitChars_recon

/-- Witness for C10 at a concrete document whose single fragment is its
whole text. -/
theorem claim_C10_witness :
    ∃ d, d ∈ [docA] ∧ fragA.source_title = d.title ∧ fragA.source_authors = d.authors ∧
      fragA.source_url = d.url ∧ fragA.source_id = d.entry_id ∧
      fragA.text.data <:+: d.full_text.data :=
  claim_C10.1 [docA] fragA (by decide)
